import Mathlib

/-!
Shallow embedding of the `scanpw` crate (files `src/try_scanpw.rs` and
`src/lib.rs`).

`try_scanpw` is embedded as a state machine over key events.  Every terminal
I/O primitive the Rust code calls (`enable_raw_mode`, `position`,
`event::read`, each `execute!` batch, `disable_raw_mode`) consumes one entry
of a failure oracle (`List (Option IoErr)`): `none` means the call succeeds,
`some e` means it fails with error `e` (an exhausted oracle means all further
calls succeed).  Side effects are collected in an effect trace (`List Eff`),
from which the rendered characters and the cursor movements can be replayed.
-/

namespace Scanpw

/-- Terminal I/O errors (`crossterm::ErrorKind`), abstracted to an opaque
code.  The code never inspects an error, it only propagates it with `?`. -/
abbrev IoErr := Nat

/-- The modifier bits of the crossterm type `KeyModifiers` (SHIFT, CONTROL, ALT). -/
structure KeyModifiers where
  shift : Bool
  control : Bool
  alt : Bool
deriving DecidableEq

/-- `KeyModifiers::is_empty()`: no modifier bit set. -/
def KeyModifiers.isEmpty (m : KeyModifiers) : Bool :=
  !m.shift && !m.control && !m.alt

/-- No modifiers held. -/
def noMods : KeyModifiers := ⟨false, false, false⟩

/-- Exactly `KeyModifiers::CONTROL`. -/
def ctrlMod : KeyModifiers := ⟨false, true, false⟩

/-- The key codes the code distinguishes: `KeyCode::Char(c)`,
`KeyCode::Enter`, `KeyCode::Backspace`, and all remaining key codes. -/
inductive KeyCode where
  | char (c : Char)
  | enter
  | backspace
  | otherKey
deriving DecidableEq

/-- The crossterm type `KeyEvent`: a key code plus the modifiers held. -/
structure KeyEvent where
  code : KeyCode
  modifiers : KeyModifiers
deriving DecidableEq

/-- A terminal event: a key event, or any non-key event (mouse, resize, ...),
which the `if let Event::Key(k)` in the loop skips. -/
inductive Event where
  | key (k : KeyEvent)
  | nonKey
deriving DecidableEq

/-- One rendering command sent to the terminal: `Print` of one character,
`MoveLeft(n)`, or `MoveToNextLine(n)`. -/
inductive OutAct where
  | print (c : Char)
  | moveLeft (n : Nat)
  | moveToNextLine (n : Nat)
deriving DecidableEq

/-- One observable side effect of the reader. -/
inductive Eff where
  | enableRaw
  | disableRaw
  | out (a : OutAct)
  | raiseInterrupt
deriving DecidableEq

/-- How a rendering command moves the terminal cursor `(column, row)`:
printing a character advances the column by one (a line feed in raw mode
moves down one row without returning the column, which is exactly why the
code follows it with `MoveToNextLine`); `MoveLeft` saturates at column 0;
`MoveToNextLine` goes to column 0, `n` rows down. -/
def applyPos : Nat × Nat → OutAct → Nat × Nat
  | (c, r), .print ch => if ch = '\n' then (c, r + 1) else (c + 1, r)
  | (c, r), .moveLeft n => (c - n, r)
  | (_, r), .moveToNextLine n => (0, r + n)

/-- The mutable state of the read: the password accumulated in `pw` and the
terminal cursor position. -/
structure St where
  pw : List Char
  col : Nat
  row : Nat
deriving DecidableEq

/-- Apply a rendering command to the tracked cursor. -/
def emit (a : OutAct) (s : St) : St :=
  let p := applyPos (s.col, s.row) a
  { s with col := p.1, row := p.2 }

/-- Consume the next oracle entry; an exhausted oracle means success. -/
def takeO : List (Option IoErr) → Option IoErr × List (Option IoErr)
  | [] => (none, [])
  | o :: rest => (o, rest)

/-- Result of dispatching one key event in the loop body: continue looping,
break out via Enter (raw mode already restored), die via Ctrl+C (raw mode
already restored, interrupt raised), or propagate an I/O error. -/
inductive DR where
  | cont (s : St) (effs : List Eff) (orc : List (Option IoErr))
  | finished (s : St) (effs : List Eff)
  | interrupted (s : St) (effs : List Eff)
  | failed (e : IoErr) (s : St) (effs : List Eff)
deriving DecidableEq

/-- The machine state carried by a dispatch result. -/
def drState : DR → St
  | .cont s _ _ => s
  | .finished s _ => s
  | .interrupted s _ => s
  | .failed _ s _ => s

/-- The effect trace carried by a dispatch result. -/
def drEffs : DR → List Eff
  | .cont _ l _ => l
  | .finished _ l => l
  | .interrupted _ l => l
  | .failed _ _ l => l

/-- The `match k` in the loop body of `try_scanpw`, arm for arm:
normal character input (no modifiers) echoes `echo.unwrap_or(c)` and pushes
that same character; Enter prints a newline, moves to the next line, breaks
(the `disable_raw_mode` after the loop runs right away); Backspace queries
the cursor, erases on screen only when one column left is still `>= maxLeft`,
then unconditionally pops; Ctrl+C prints `^C`, disables raw mode and raises
the interrupt (`die()`); everything else is ignored. -/
def dispatchKey (echo : Option Char) (maxLeft : Nat) (k : KeyEvent) (s : St)
    (orc : List (Option IoErr)) : DR :=
  match k.code with
  | .char c =>
    if k.modifiers.isEmpty then
      let c1 := echo.getD c
      match takeO orc with
      | (some e, _) => .failed e s []
      | (none, orc1) =>
        let s1 := emit (.print c1) s
        .cont { s1 with pw := s1.pw ++ [c1] } [.out (.print c1)] orc1
    else if c = 'c' ∧ k.modifiers = ctrlMod then
      match takeO orc with
      | (some e, _) => .failed e s []
      | (none, orc1) =>
        let s1 := emit (.print 'C') (emit (.print '^') s)
        match takeO orc1 with
        | (some e, _) => .failed e s1 [.out (.print '^'), .out (.print 'C')]
        | (none, _) =>
          .interrupted s1
            [.out (.print '^'), .out (.print 'C'), .disableRaw, .raiseInterrupt]
    else
      .cont s [] orc
  | .enter =>
    match takeO orc with
    | (some e, _) => .failed e s []
    | (none, orc1) =>
      let s1 := emit (.print '\n') s
      match takeO orc1 with
      | (some e, _) => .failed e s1 [.out (.print '\n')]
      | (none, orc2) =>
        let s2 := emit (.moveToNextLine 1) s1
        match takeO orc2 with
        | (some e, _) => .failed e s2 [.out (.print '\n'), .out (.moveToNextLine 1)]
        | (none, _) =>
          .finished s2
            [.out (.print '\n'), .out (.moveToNextLine 1), .disableRaw]
  | .backspace =>
    match takeO orc with
    | (some e, _) => .failed e s []
    | (none, orc1) =>
      let curLeft := s.col
      let notTooFar : Bool :=
        if curLeft = 0 then false else decide (maxLeft ≤ curLeft - 1)
      if notTooFar then
        match takeO orc1 with
        | (some e, _) => .failed e s []
        | (none, orc2) =>
          let s1 := emit (.moveLeft 1) (emit (.print ' ') (emit (.moveLeft 1) s))
          .cont { s1 with pw := s1.pw.dropLast }
            [.out (.moveLeft 1), .out (.print ' '), .out (.moveLeft 1)] orc2
      else
        .cont { s with pw := s.pw.dropLast } [] orc1
  | .otherKey => .cont s [] orc

/-- How one read terminates: normally with the password, with a propagated
I/O error, by the Ctrl+C interrupt (the call does not return), or blocked
forever waiting for an event that never arrives. -/
inductive Outcome where
  | ok (pw : List Char)
  | err (e : IoErr)
  | interrupted
  | blocked
deriving DecidableEq

/-- The `loop` of `try_scanpw`: read the next event (one oracle entry),
skip non-key events, dispatch key events.  Returns the outcome, the final
state and the effect trace emitted from this point on. -/
def loopF (echo : Option Char) (maxLeft : Nat) :
    List Event → List (Option IoErr) → St → Outcome × St × List Eff
  | [], _, s => (.blocked, s, [])
  | ev :: rest, orc, s =>
    match takeO orc with
    | (some e, _) => (.err e, s, [])
    | (none, orc1) =>
      match ev with
      | .nonKey => loopF echo maxLeft rest orc1 s
      | .key k =>
        match dispatchKey echo maxLeft k s orc1 with
        | .cont s1 effs orc2 =>
          let r := loopF echo maxLeft rest orc2 s1
          (r.1, r.2.1, effs ++ r.2.2)
        | .finished s1 effs => (.ok s1.pw, s1, effs)
        | .interrupted s1 effs => (.interrupted, s1, effs)
        | .failed e s1 effs => (.err e, s1, effs)

/-- `try_scanpw(echo)`: enable raw mode, record the starting column as
`max_left` via `position()`, run the loop on an empty password.  `col0` and
`row0` are the cursor position at entry (after any prompt). -/
def try_scanpw (echo : Option Char) (col0 row0 : Nat) (evs : List Event)
    (orc : List (Option IoErr)) : Outcome × St × List Eff :=
  match takeO orc with
  | (some e, _) => (.err e, ⟨[], col0, row0⟩, [])
  | (none, orc1) =>
    match takeO orc1 with
    | (some e, _) => (.err e, ⟨[], col0, row0⟩, [.enableRaw])
    | (none, orc2) =>
      let r := loopF echo col0 evs orc2 ⟨[], col0, row0⟩
      (r.1, r.2.1, .enableRaw :: r.2.2)

/-- The rendering commands of a trace, in order. -/
def effOuts : List Eff → List OutAct
  | [] => []
  | .out a :: rest => a :: effOuts rest
  | _ :: rest => effOuts rest

/-- The characters printed by a trace, in order. -/
def printedChars (l : List Eff) : List Char :=
  (effOuts l).filterMap fun a =>
    match a with
    | .print c => some c
    | _ => none

/-- Replay rendering commands from a start position, listing every cursor
position reached (one per command). -/
def positions (p : Nat × Nat) : List OutAct → List (Nat × Nat)
  | [] => []
  | a :: rest => applyPos p a :: positions (applyPos p a) rest

/-- The cursor position after replaying a whole command list. -/
def stepPos (p : Nat × Nat) (l : List OutAct) : Nat × Nat :=
  l.foldl applyPos p

/-- `true` exactly on the outcomes on which `try_scanpw` leaves the loop
deliberately (Enter or Ctrl+C), rather than by error or starvation. -/
def normalExit : Outcome → Bool
  | .ok _ => true
  | .interrupted => true
  | _ => false

/-- `true` on events whose dispatch continues the loop: everything except an
Enter key and except Ctrl+C. -/
def continuing : Event → Bool
  | .nonKey => true
  | .key ⟨.enter, _⟩ => false
  | .key ⟨.char c, m⟩ => !(decide (c = 'c' ∧ m = ctrlMod))
  | .key ⟨.backspace, _⟩ => true
  | .key ⟨.otherKey, _⟩ => true

/-- A printable character key event with no modifiers. -/
def kchar (c : Char) : Event := .key ⟨.char c, noMods⟩

/-- The Enter key event. -/
def kenter : Event := .key ⟨.enter, noMods⟩

/-- The Backspace key event. -/
def kbs : Event := .key ⟨.backspace, noMods⟩

/-- The Ctrl+C key event: `'c'` with exactly the Control modifier. -/
def kctrlc : Event := .key ⟨.char 'c', ctrlMod⟩

/-- The `.unwrap()` that the `scanpw!` macro applies to the result of `try_scanpw`:
a value on `Ok`, a fatal program abort (modelled as `none`) otherwise. -/
def macroResult : Outcome → Option (List Char)
  | .ok pw => some pw
  | _ => none

/-- Effects of a `scanpw!` macro invocation with a prompt: writing the
prompt, flushing standard output, then everything the reader does. -/
inductive MEff where
  | promptWrite (s : List Char)
  | flush
  | reader (e : Eff)
deriving DecidableEq

/-- The `( $fmt:literal )` arm of `scanpw!`: `print!($fmt)`, then
`stdout().flush().unwrap()`, then `try_scanpw(Some('*')).unwrap()`. -/
def scanpw_prompt (prompt : List Char) (col0 row0 : Nat) (evs : List Event)
    (orc : List (Option IoErr)) : Option (List Char) × List MEff :=
  let r := try_scanpw (some '*') col0 row0 evs orc
  (macroResult r.1, .promptWrite prompt :: .flush :: r.2.2.map .reader)

/-! Theorems -/

/-- Claim C1: with mask echo `Some('*')`, typing `p`,`a`,`s`,`s` then Enter
renders exactly four `'*'` followed by a newline, as the claim states; but the
returned string is `"****"`, not `"pass"`: the code pushes the shadowed echo
character into the password buffer (`let c = echo.unwrap_or(c); ...
pw.push(c)`), so the typed characters are lost. -/
theorem c1_mask_run_evaluation :
    (try_scanpw (some '*') 0 0
        [kchar 'p', kchar 'a', kchar 's', kchar 's', kenter] []).1
      = .ok ['*', '*', '*', '*'] ∧
    printedChars (try_scanpw (some '*') 0 0
        [kchar 'p', kchar 'a', kchar 's', kchar 's', kenter] []).2.2
      = ['*', '*', '*', '*', '\n'] ∧
    (try_scanpw (some '*') 0 0
        [kchar 'p', kchar 'a', kchar 's', kchar 's', kenter] []).1
      ≠ .ok ['p', 'a', 's', 's'] := by
  refine ⟨rfl, rfl, ?_⟩
  decide

/-- Claim C2: with suppressed echo (`None`), the returned string does equal
the typed characters, but the rendering part of the claim fails on the code:
`echo.unwrap_or(c)` keeps the typed character and `Print(c)` echoes it in
plaintext, so typing `p` then Enter renders `p` followed by a newline instead
of only the newline. -/
theorem c2_suppressed_run_evaluation :
    (try_scanpw none 0 0 [kchar 'p', kenter] []).1 = .ok ['p'] ∧
    printedChars (try_scanpw none 0 0 [kchar 'p', kenter] []).2.2
      = ['p', '\n'] ∧
    printedChars (try_scanpw none 0 0 [kchar 'p', kenter] []).2.2 ≠ ['\n'] := by
  refine ⟨rfl, rfl, ?_⟩
  decide

/-- Claim C7: the edit sequence `p`,`a`,`x`,Backspace,`s`,`s`,Enter yields
`"pass"` only when echo is `None` (buffer evolves as the claim describes);
with the default mask `Some('*')` the same sequence yields `"****"`, because
the echo character is what gets pushed and popped. -/
theorem c7_edit_run_evaluation :
    (try_scanpw none 0 0
        [kchar 'p', kchar 'a', kchar 'x', kbs, kchar 's', kchar 's', kenter]
        []).1 = .ok ['p', 'a', 's', 's'] ∧
    (try_scanpw (some '*') 0 0
        [kchar 'p', kchar 'a', kchar 'x', kbs, kchar 's', kchar 's', kenter]
        []).1 = .ok ['*', '*', '*', '*'] := ⟨rfl, rfl⟩

/-- Claim C3, counterexample: when the initial `position()` call fails (after
raw mode was enabled), `try_scanpw` returns the error with raw mode still
enabled: the trace contains the enable but no matching disable, refuting
"a disable on every exit path". -/
theorem c3_io_error_leaves_raw_mode :
    (try_scanpw (some '*') 2 0 [] [none, some 7]).1 = .err 7 ∧
    Eff.enableRaw ∈ (try_scanpw (some '*') 2 0 [] [none, some 7]).2.2 ∧
    Eff.disableRaw ∉ (try_scanpw (some '*') 2 0 [] [none, some 7]).2.2 := by
  decide

/-- Claim C8: every terminal I/O failure is propagated immediately and
untouched, with no retry, at every fallible call site of `try_scanpw`: a
failing `enable_raw_mode` returns that exact error with the buffer still
empty and no side effect performed; a failing initial `position()` returns
right after the enable; a failing `event::read` aborts the loop at once; a
failing dispatch makes the loop return that exact error with nothing further
consumed; a failing echo write, a failing newline or move-to-next-line write
on the Enter path, a failing `disable_raw_mode` on the Enter path, a failing
`^C` write or a failing `disable_raw_mode` on the Ctrl+C path (in which case
no interrupt is raised), a failing `position()` or erase write on the
Backspace path, each fail the dispatch with exactly the effects performed so
far and no buffer mutation; and the `scanpw!` macro layer turns any returned
error into a fatal abort (`unwrap`), never into a value. -/
theorem c8_error_propagation (echo : Option Char) :
    (∀ (e : IoErr) (col0 row0 : Nat) (evs : List Event)
        (orc : List (Option IoErr)),
        try_scanpw echo col0 row0 evs (some e :: orc)
          = (.err e, ⟨[], col0, row0⟩, [])) ∧
    (∀ (e : IoErr) (col0 row0 : Nat) (evs : List Event)
        (orc : List (Option IoErr)),
        try_scanpw echo col0 row0 evs (none :: some e :: orc)
          = (.err e, ⟨[], col0, row0⟩, [.enableRaw])) ∧
    (∀ (col0 row0 : Nat) (evs : List Event) (orc : List (Option IoErr)),
        try_scanpw echo col0 row0 evs (none :: none :: orc)
          = ((loopF echo col0 evs orc ⟨[], col0, row0⟩).1,
              (loopF echo col0 evs orc ⟨[], col0, row0⟩).2.1,
              .enableRaw :: (loopF echo col0 evs orc ⟨[], col0, row0⟩).2.2)) ∧
    (∀ (e : IoErr) (ml : Nat) (ev : Event) (rest : List Event)
        (orc : List (Option IoErr)) (s : St),
        loopF echo ml (ev :: rest) (some e :: orc) s = (.err e, s, [])) ∧
    (∀ (e : IoErr) (ml : Nat) (k : KeyEvent) (rest : List Event)
        (orcd : List (Option IoErr)) (s s1 : St) (effs : List Eff),
        dispatchKey echo ml k s orcd = .failed e s1 effs →
        loopF echo ml (.key k :: rest) (none :: orcd) s
          = (.err e, s1, effs)) ∧
    (∀ (e : IoErr) (ml : Nat) (c : Char) (s : St) (orc : List (Option IoErr)),
        dispatchKey echo ml ⟨.char c, noMods⟩ s (some e :: orc)
          = .failed e s []) ∧
    (∀ (e : IoErr) (ml : Nat) (m : KeyModifiers) (s : St)
        (orc : List (Option IoErr)),
        dispatchKey echo ml ⟨.enter, m⟩ s (some e :: orc) = .failed e s []) ∧
    (∀ (e : IoErr) (ml : Nat) (m : KeyModifiers) (s : St)
        (orc : List (Option IoErr)),
        dispatchKey echo ml ⟨.enter, m⟩ s (none :: some e :: orc)
          = .failed e (emit (.print '\n') s) [.out (.print '\n')]) ∧
    (∀ (e : IoErr) (ml : Nat) (m : KeyModifiers) (s : St)
        (orc : List (Option IoErr)),
        dispatchKey echo ml ⟨.enter, m⟩ s (none :: none :: some e :: orc)
          = .failed e (emit (.moveToNextLine 1) (emit (.print '\n') s))
              [.out (.print '\n'), .out (.moveToNextLine 1)]) ∧
    (∀ (e : IoErr) (ml : Nat) (s : St) (orc : List (Option IoErr)),
        dispatchKey echo ml ⟨.char 'c', ctrlMod⟩ s (some e :: orc)
          = .failed e s []) ∧
    (∀ (e : IoErr) (ml : Nat) (s : St) (orc : List (Option IoErr)),
        dispatchKey echo ml ⟨.char 'c', ctrlMod⟩ s (none :: some e :: orc)
          = .failed e (emit (.print 'C') (emit (.print '^') s))
              [.out (.print '^'), .out (.print 'C')]) ∧
    (∀ (e : IoErr) (ml : Nat) (m : KeyModifiers) (s : St)
        (orc : List (Option IoErr)),
        dispatchKey echo ml ⟨.backspace, m⟩ s (some e :: orc)
          = .failed e s []) ∧
    (∀ (e : IoErr) (ml : Nat) (m : KeyModifiers) (s : St)
        (orc : List (Option IoErr)),
        s.col ≠ 0 → ml ≤ s.col - 1 →
        dispatchKey echo ml ⟨.backspace, m⟩ s (none :: some e :: orc)
          = .failed e s []) ∧
    (∀ e : IoErr, macroResult (.err e) = none) := by
  refine ⟨?_, ?_, ?_, ?_, ?_, ?_, ?_, ?_, ?_, ?_, ?_, ?_, ?_, ?_⟩
  · intros
    rfl
  · intros
    rfl
  · intros
    rfl
  · intros
    rfl
  · intro e ml k rest orcd s s1 effs hd
    simp only [loopF, takeO]
    rw [hd]
  · intros
    rfl
  · intros
    rfl
  · intros
    rfl
  · intros
    rfl
  · intros
    rfl
  · intros
    rfl
  · intros
    rfl
  · intro e ml m s orc h0 hle
    simp only [dispatchKey, takeO, if_neg h0, decide_eq_true hle,
      eq_self_iff_true, if_true]
  · intros
    rfl

/-- Witness for C8: concrete instances of the two conditional conjuncts — a
Backspace whose erase write fails at a state away from the bound, and an
Enter whose newline write fails, propagated by the loop as that error. -/
theorem c8_error_propagation_witness :
    ((St.mk ['a'] 3 0).col ≠ 0 ∧ (0 : Nat) ≤ (St.mk ['a'] 3 0).col - 1) ∧
    (dispatchKey (some '*') 0 ⟨.backspace, noMods⟩ ⟨['a'], 3, 0⟩
        (none :: some 7 :: []) = .failed 7 ⟨['a'], 3, 0⟩ []) ∧
    (dispatchKey (some '*') 0 ⟨.enter, noMods⟩ ⟨[], 0, 0⟩ [some 7]
        = .failed 7 ⟨[], 0, 0⟩ [] ∧
      loopF (some '*') 0 [Event.key ⟨.enter, noMods⟩] (none :: [some 7])
          ⟨[], 0, 0⟩
        = (.err 7, ⟨[], 0, 0⟩, [])) :=
  ⟨⟨by decide, by decide⟩,
    (c8_error_propagation
        (some '*')).2.2.2.2.2.2.2.2.2.2.2.2.1 7 0 noMods ⟨['a'], 3, 0⟩ []
      (by decide) (by decide),
    ⟨by decide,
      (c8_error_propagation (some '*')).2.2.2.2.1 7 0 ⟨.enter, noMods⟩ []
        [some 7] ⟨[], 0, 0⟩ ⟨[], 0, 0⟩ [] (by decide)⟩⟩

/-- Claim C9: in a `scanpw!` invocation with a prompt, the exact prompt bytes
are the first effect and the explicit flush is the second, and every effect
of the reader (hence any rendering triggered by a key event) occurs strictly
after both. -/
theorem c9_prompt_before_reader (prompt : List Char) (col0 row0 : Nat)
    (evs : List Event) (orc : List (Option IoErr)) (i : Nat) (e : Eff)
    (h : (scanpw_prompt prompt col0 row0 evs orc).2.get? i
          = some (.reader e)) :
    (scanpw_prompt prompt col0 row0 evs orc).2.get? 0
      = some (.promptWrite prompt) ∧
    (scanpw_prompt prompt col0 row0 evs orc).2.get? 1 = some MEff.flush ∧
    2 ≤ i := by
  refine ⟨rfl, rfl, ?_⟩
  match i with
  | 0 => simp [scanpw_prompt] at h
  | 1 => simp [scanpw_prompt] at h
  | n + 2 => omega

/-- Witness for C9: a concrete invocation in which the first reader effect
(enabling raw mode) sits at index 2, after the prompt and the flush. -/
theorem c9_prompt_before_reader_witness :
    ((scanpw_prompt ['P'] 0 0 [] []).2.get? 2
      = some (.reader .enableRaw)) ∧
    ((scanpw_prompt ['P'] 0 0 [] []).2.get? 0
        = some (.promptWrite ['P']) ∧
      (scanpw_prompt ['P'] 0 0 [] []).2.get? 1 = some MEff.flush ∧
      2 ≤ 2) :=
  ⟨rfl, c9_prompt_before_reader ['P'] 0 0 [] [] 2 .enableRaw rfl⟩

/-- Claim C10: a character key event carrying a non-empty modifier set that is
not exactly Control plus `'c'` is ignored: the dispatch returns the state
unchanged, emits no output, consumes no further I/O call, and the loop
continues; such characters therefore never reach the password buffer. -/
theorem c10_modified_char_ignored (echo : Option Char) (ml : Nat) (c : Char)
    (m : KeyModifiers) (s : St) (orc : List (Option IoErr))
    (h1 : m.isEmpty = false) (h2 : ¬(c = 'c' ∧ m = ctrlMod)) :
    dispatchKey echo ml ⟨.char c, m⟩ s orc = .cont s [] orc := by
  simp [dispatchKey, h1, h2]

/-- Witness for C10: an uppercase `'A'` delivered with the Shift modifier is
dispatched as a no-op. -/
theorem c10_modified_char_ignored_witness :
    (KeyModifiers.isEmpty ⟨true, false, false⟩ = false) ∧
    ¬('A' = 'c' ∧ (⟨true, false, false⟩ : KeyModifiers) = ctrlMod) ∧
    dispatchKey (some '*') 0 ⟨.char 'A', ⟨true, false, false⟩⟩ ⟨[], 0, 0⟩ []
      = .cont ⟨[], 0, 0⟩ [] [] :=
  ⟨by decide, by decide,
    c10_modified_char_ignored (some '*') 0 'A' ⟨true, false, false⟩ ⟨[], 0, 0⟩
      [] (by decide) (by decide)⟩

/-- Claim C5: dispatching a Backspace (with no I/O failure) always continues
the loop with the last buffer character removed (`pw.pop()` runs even when
the on-screen erase was skipped); when the cursor is at the recorded bound
`maxLeft`, the cursor column is unchanged and nothing is rendered; and when
additionally the buffer is empty the event is a complete no-op on both buffer
and screen. -/
theorem c5_backspace_pop (echo : Option Char) (ml : Nat) (m : KeyModifiers)
    (s s1 : St) (effs : List Eff) (orc2 : List (Option IoErr))
    (h : dispatchKey echo ml ⟨.backspace, m⟩ s [] = .cont s1 effs orc2) :
    s1.pw = s.pw.dropLast ∧
    (s.col = ml → s1.col = s.col ∧ effs = []) ∧
    (s.col = ml → s.pw = [] → s1 = s ∧ effs = []) := by
  simp only [dispatchKey, takeO] at h
  by_cases h0 : s.col = 0
  · rw [if_neg (by simp [h0])] at h
    cases h
    refine ⟨rfl, fun _ => ⟨rfl, rfl⟩, fun _ hpw => ⟨?_, rfl⟩⟩
    cases s
    simp_all
  · by_cases hle : ml ≤ s.col - 1
    · rw [if_pos (by simp [h0, hle])] at h
      cases h
      refine ⟨by simp [emit], ?_, ?_⟩
      · intro hml
        exfalso
        omega
      · intro hml _
        exfalso
        omega
    · rw [if_neg (by simp [h0, hle])] at h
      cases h
      refine ⟨rfl, fun _ => ⟨rfl, rfl⟩, fun _ hpw => ⟨?_, rfl⟩⟩
      cases s
      simp_all

/-- Witness for C5: a Backspace at the cursor bound with one buffered
character pops it while leaving the screen untouched. -/
theorem c5_backspace_pop_witness :
    (dispatchKey (some '*') 2 ⟨.backspace, noMods⟩ ⟨['a'], 2, 0⟩ []
        = .cont ⟨[], 2, 0⟩ [] []) ∧
    ((St.mk [] 2 0).pw = (St.mk ['a'] 2 0).pw.dropLast ∧
      ((St.mk ['a'] 2 0).col = 2 →
        (St.mk [] 2 0).col = (St.mk ['a'] 2 0).col ∧ ([] : List Eff) = []) ∧
      ((St.mk ['a'] 2 0).col = 2 → (St.mk ['a'] 2 0).pw = [] →
        St.mk [] 2 0 = St.mk ['a'] 2 0 ∧ ([] : List Eff) = [])) :=
  ⟨by decide,
    c5_backspace_pop (some '*') 2 noMods ⟨['a'], 2, 0⟩ ⟨[], 2, 0⟩ [] []
      (by decide)⟩

/-- Case analysis principle for `dispatchKey`: a property holds of the
dispatch result once it holds of each result shape the definition can
produce (the Backspace erase shape comes with the guard facts). -/
lemma dispatchKey_cases (echo : Option Char) (ml : Nat) (k : KeyEvent)
    (s : St) (orc : List (Option IoErr)) (P : DR → Prop)
    (hfail0 : ∀ e : IoErr, P (.failed e s []))
    (hchar : ∀ (c1 : Char) (orcx : List (Option IoErr)),
      P (.cont { emit (.print c1) s with pw := (emit (.print c1) s).pw ++ [c1] }
          [.out (.print c1)] orcx))
    (hskip : ∀ orcx : List (Option IoErr), P (.cont s [] orcx))
    (hint : P (.interrupted (emit (.print 'C') (emit (.print '^') s))
        [.out (.print '^'), .out (.print 'C'), .disableRaw, .raiseInterrupt]))
    (hfailC : ∀ e : IoErr,
      P (.failed e (emit (.print 'C') (emit (.print '^') s))
          [.out (.print '^'), .out (.print 'C')]))
    (hfin : P (.finished (emit (.moveToNextLine 1) (emit (.print '\n') s))
        [.out (.print '\n'), .out (.moveToNextLine 1), .disableRaw]))
    (hfailN : ∀ e : IoErr,
      P (.failed e (emit (.print '\n') s) [.out (.print '\n')]))
    (hfailNM : ∀ e : IoErr,
      P (.failed e (emit (.moveToNextLine 1) (emit (.print '\n') s))
          [.out (.print '\n'), .out (.moveToNextLine 1)]))
    (hbsErase : s.col ≠ 0 → ml ≤ s.col - 1 →
      ∀ orcx : List (Option IoErr),
      P (.cont
          { emit (.moveLeft 1) (emit (.print ' ') (emit (.moveLeft 1) s)) with
            pw := (emit (.moveLeft 1)
              (emit (.print ' ') (emit (.moveLeft 1) s))).pw.dropLast }
          [.out (.moveLeft 1), .out (.print ' '), .out (.moveLeft 1)] orcx))
    (hbsNo : ∀ orcx : List (Option IoErr),
      P (.cont { s with pw := s.pw.dropLast } [] orcx)) :
    P (dispatchKey echo ml k s orc) := by
  rcases k with ⟨code, m⟩
  cases code with
  | char c =>
    by_cases hm : m.isEmpty = true
    · rcases horc : takeO orc with ⟨o, orcx⟩
      cases o with
      | some e =>
        simp only [dispatchKey, hm, eq_self_iff_true, if_true, horc]
        exact hfail0 e
      | none =>
        simp only [dispatchKey, hm, eq_self_iff_true, if_true, horc]
        exact hchar (echo.getD c) orcx
    · rw [Bool.not_eq_true] at hm
      by_cases hcc : c = 'c' ∧ m = ctrlMod
      · rcases horc : takeO orc with ⟨o, orcx⟩
        cases o with
        | some e =>
          simp only [dispatchKey, hm, Bool.false_eq_true, if_false,
            if_pos hcc, horc]
          exact hfail0 e
        | none =>
          rcases horc1 : takeO orcx with ⟨o1, orcy⟩
          cases o1 with
          | some e =>
            simp only [dispatchKey, hm, Bool.false_eq_true, if_false,
              if_pos hcc, horc, horc1]
            exact hfailC e
          | none =>
            simp only [dispatchKey, hm, Bool.false_eq_true, if_false,
              if_pos hcc, horc, horc1]
            exact hint
      · simp only [dispatchKey, hm, Bool.false_eq_true, if_false, if_neg hcc]
        exact hskip orc
  | enter =>
    rcases horc : takeO orc with ⟨o, orcx⟩
    cases o with
    | some e =>
      simp only [dispatchKey, horc]
      exact hfail0 e
    | none =>
      rcases horc1 : takeO orcx with ⟨o1, orcy⟩
      cases o1 with
      | some e =>
        simp only [dispatchKey, horc, horc1]
        exact hfailN e
      | none =>
        rcases horc2 : takeO orcy with ⟨o2, orcz⟩
        cases o2 with
        | some e =>
          simp only [dispatchKey, horc, horc1, horc2]
          exact hfailNM e
        | none =>
          simp only [dispatchKey, horc, horc1, horc2]
          exact hfin
  | backspace =>
    rcases horc : takeO orc with ⟨o, orcx⟩
    cases o with
    | some e =>
      simp only [dispatchKey, horc]
      exact hfail0 e
    | none =>
      by_cases h0 : s.col = 0
      · simp only [dispatchKey, horc, if_pos h0, Bool.false_eq_true, if_false]
        exact hbsNo orcx
      · by_cases hle : ml ≤ s.col - 1
        · rcases horc1 : takeO orcx with ⟨o1, orcy⟩
          cases o1 with
          | some e =>
            simp only [dispatchKey, horc, if_neg h0, decide_eq_true hle,
              eq_self_iff_true, if_true, horc1]
            exact hfail0 e
          | none =>
            simp only [dispatchKey, horc, if_neg h0, decide_eq_true hle,
              eq_self_iff_true, if_true, horc1]
            exact hbsErase h0 hle orcy
        · simp only [dispatchKey, horc, if_neg h0, decide_eq_false hle,
            Bool.false_eq_true, if_false]
          exact hbsNo orcx
  | otherKey =>
    simp only [dispatchKey]
    exact hskip orc

/-- Every dispatch that ends the read deliberately (Enter or Ctrl+C) has
already emitted the raw mode disable into its effects. -/
lemma dispatchKey_disable_mem (echo : Option Char) (ml : Nat) (k : KeyEvent)
    (s : St) (orc : List (Option IoErr)) :
    match dispatchKey echo ml k s orc with
    | .finished _ effs => Eff.disableRaw ∈ effs
    | .interrupted _ effs => Eff.disableRaw ∈ effs
    | _ => True := by
  refine dispatchKey_cases echo ml k s orc
      (fun d =>
        match d with
        | .finished _ effs => Eff.disableRaw ∈ effs
        | .interrupted _ effs => Eff.disableRaw ∈ effs
        | _ => True) ?_ ?_ ?_ ?_ ?_ ?_ ?_ ?_ ?_ ?_ <;>
    intros <;> simp

/-- If the loop exits normally (Enter or Ctrl+C), its trace contains the raw
mode disable. -/
lemma loopF_disable_mem (echo : Option Char) (ml : Nat) :
    ∀ (evs : List Event) (orc : List (Option IoErr)) (s : St),
      normalExit (loopF echo ml evs orc s).1 = true →
      Eff.disableRaw ∈ (loopF echo ml evs orc s).2.2 := by
  intro evs
  induction evs with
  | nil =>
    intro orc s h
    simp [loopF, normalExit] at h
  | cons ev rest ih =>
    intro orc s
    rcases horc : takeO orc with ⟨o, orc1⟩
    cases o with
    | some e =>
      simp only [loopF, horc]
      intro h
      simp [normalExit] at h
    | none =>
      cases ev with
      | nonKey =>
        simp only [loopF, horc]
        exact ih orc1 s
      | key k =>
        have hdm := dispatchKey_disable_mem echo ml k s orc1
        simp only [loopF, horc]
        rcases hd : dispatchKey echo ml k s orc1 with
            ⟨s1, effs, orc2⟩ | ⟨s1, effs⟩ | ⟨s1, effs⟩ | ⟨e, s1, effs⟩
        · intro h
          exact List.mem_append_right _ (ih orc2 s1 h)
        · intro _
          rw [hd] at hdm
          exact hdm
        · intro _
          rw [hd] at hdm
          exact hdm
        · intro h
          exact Bool.noConfusion h

/-- Claim C3, amended: the enable of raw mode is matched by a disable on the
successful return path and on the Ctrl+C interrupt path; whenever the read
leaves the loop deliberately, the trace contains both the enable and the
disable.  (On an I/O failure path the error is returned at once and raw mode
is left enabled; see the counterexample.) -/
theorem c3_raw_mode_on_normal_exit (echo : Option Char) (col0 row0 : Nat)
    (evs : List Event) (orc : List (Option IoErr))
    (h : normalExit (try_scanpw echo col0 row0 evs orc).1 = true) :
    Eff.enableRaw ∈ (try_scanpw echo col0 row0 evs orc).2.2 ∧
    Eff.disableRaw ∈ (try_scanpw echo col0 row0 evs orc).2.2 := by
  revert h
  unfold try_scanpw
  split
  · intro h
    simp [normalExit] at h
  · split
    · intro h
      simp [normalExit] at h
    · dsimp only
      intro h
      refine ⟨List.mem_cons_self _ _, List.mem_cons_of_mem _ ?_⟩
      exact loopF_disable_mem echo col0 evs _ _ h

/-- Witness for C3: a run that just presses Enter exits normally with both
the enable and the disable in its trace. -/
theorem c3_raw_mode_on_normal_exit_witness :
    normalExit (try_scanpw (some '*') 0 0 [kenter] []).1 = true ∧
    (Eff.enableRaw ∈ (try_scanpw (some '*') 0 0 [kenter] []).2.2 ∧
      Eff.disableRaw ∈ (try_scanpw (some '*') 0 0 [kenter] []).2.2) :=
  ⟨by decide,
    c3_raw_mode_on_normal_exit (some '*') 0 0 [kenter] [] (by decide)⟩

/-- The rendering commands of concatenated traces concatenate. -/
lemma effOuts_append (l1 l2 : List Eff) :
    effOuts (l1 ++ l2) = effOuts l1 ++ effOuts l2 := by
  induction l1 with
  | nil => rfl
  | cons a rest ih =>
    cases a <;> simp [effOuts, ih]

/-- Replaying concatenated command lists concatenates the visited positions. -/
lemma positions_append (p : Nat × Nat) (xs ys : List OutAct) :
    positions p (xs ++ ys)
      = positions p xs ++ positions (stepPos p xs) ys := by
  induction xs generalizing p with
  | nil => simp [positions, stepPos]
  | cons a rest ih => simp [positions, stepPos, ih]

/-- Printing a character preserves the cursor bound: the column can only
grow, and a line feed leaves the starting row. -/
lemma goodPos_applyPos_print (ml : Nat) (p : Nat × Nat) (c : Char)
    (h : p.2 = 0 → ml ≤ p.1) :
    (applyPos p (.print c)).2 = 0 → ml ≤ (applyPos p (.print c)).1 := by
  rcases p with ⟨a, b⟩
  simp only [applyPos]
  split
  · intro hb
    simp at hb
  · intro hb
    simp only at hb ⊢
    exact Nat.le_succ_of_le (h hb)

/-- Moving to the next line leaves the starting row, so the bound holds
vacuously afterwards. -/
lemma goodPos_applyPos_mtnl (ml : Nat) (p : Nat × Nat) :
    (applyPos p (.moveToNextLine 1)).2 = 0
      → ml ≤ (applyPos p (.moveToNextLine 1)).1 := by
  rcases p with ⟨a, b⟩
  simp [applyPos]

/-- One dispatch keeps the cursor invariant: the replayed effects end exactly
at the resulting state, the resulting state still satisfies the bound, and
every intermediate cursor position on the starting row is at or right of the
bound. -/
lemma dispatchKey_trace_bound (echo : Option Char) (ml : Nat) (k : KeyEvent)
    (s : St) (orc : List (Option IoErr)) (hs : s.row = 0 → ml ≤ s.col) :
    stepPos (s.col, s.row) (effOuts (drEffs (dispatchKey echo ml k s orc)))
        = ((drState (dispatchKey echo ml k s orc)).col,
          (drState (dispatchKey echo ml k s orc)).row) ∧
    ((drState (dispatchKey echo ml k s orc)).row = 0 →
      ml ≤ (drState (dispatchKey echo ml k s orc)).col) ∧
    ∀ q ∈ positions (s.col, s.row)
        (effOuts (drEffs (dispatchKey echo ml k s orc))),
      q.2 = 0 → ml ≤ q.1 := by
  refine dispatchKey_cases echo ml k s orc
      (fun d =>
        stepPos (s.col, s.row) (effOuts (drEffs d))
            = ((drState d).col, (drState d).row) ∧
        ((drState d).row = 0 → ml ≤ (drState d).col) ∧
        ∀ q ∈ positions (s.col, s.row) (effOuts (drEffs d)),
          q.2 = 0 → ml ≤ q.1)
      ?_ ?_ ?_ ?_ ?_ ?_ ?_ ?_ ?_ ?_
  · intro e
    refine ⟨rfl, hs, ?_⟩
    intro q hq
    simp [effOuts, positions] at hq
  · intro c1 orcx
    refine ⟨rfl, goodPos_applyPos_print ml (s.col, s.row) c1 hs, ?_⟩
    intro q hq
    simp [effOuts, positions] at hq
    subst hq
    exact goodPos_applyPos_print ml (s.col, s.row) c1 hs
  · intro orcx
    refine ⟨rfl, hs, ?_⟩
    intro q hq
    simp [effOuts, positions] at hq
  · refine ⟨rfl,
      goodPos_applyPos_print ml (applyPos (s.col, s.row) (.print '^')) 'C'
        (goodPos_applyPos_print ml (s.col, s.row) '^' hs), ?_⟩
    intro q hq
    simp [effOuts, positions] at hq
    rcases hq with hq | hq <;> subst hq
    · exact goodPos_applyPos_print ml (s.col, s.row) '^' hs
    · exact goodPos_applyPos_print ml (applyPos (s.col, s.row) (.print '^'))
        'C' (goodPos_applyPos_print ml (s.col, s.row) '^' hs)
  · intro e
    refine ⟨rfl,
      goodPos_applyPos_print ml (applyPos (s.col, s.row) (.print '^')) 'C'
        (goodPos_applyPos_print ml (s.col, s.row) '^' hs), ?_⟩
    intro q hq
    simp [effOuts, positions] at hq
    rcases hq with hq | hq <;> subst hq
    · exact goodPos_applyPos_print ml (s.col, s.row) '^' hs
    · exact goodPos_applyPos_print ml (applyPos (s.col, s.row) (.print '^'))
        'C' (goodPos_applyPos_print ml (s.col, s.row) '^' hs)
  · refine ⟨rfl,
      goodPos_applyPos_mtnl ml (applyPos (s.col, s.row) (.print '\n')), ?_⟩
    intro q hq
    simp [effOuts, positions] at hq
    rcases hq with hq | hq <;> subst hq
    · exact goodPos_applyPos_print ml (s.col, s.row) '\n' hs
    · exact goodPos_applyPos_mtnl ml (applyPos (s.col, s.row) (.print '\n'))
  · intro e
    refine ⟨rfl, goodPos_applyPos_print ml (s.col, s.row) '\n' hs, ?_⟩
    intro q hq
    simp [effOuts, positions] at hq
    subst hq
    exact goodPos_applyPos_print ml (s.col, s.row) '\n' hs
  · intro e
    refine ⟨rfl,
      goodPos_applyPos_mtnl ml (applyPos (s.col, s.row) (.print '\n')), ?_⟩
    intro q hq
    simp [effOuts, positions] at hq
    rcases hq with hq | hq <;> subst hq
    · exact goodPos_applyPos_print ml (s.col, s.row) '\n' hs
    · exact goodPos_applyPos_mtnl ml (applyPos (s.col, s.row) (.print '\n'))
  · intro h0 hle orcx
    refine ⟨rfl, ?_, ?_⟩
    · simp only [drState, emit, applyPos,
        if_neg (by decide : ¬((' ' : Char) = '\n'))]
      intro h
      omega
    · intro q hq
      simp only [drEffs, effOuts, positions, applyPos,
        if_neg (by decide : ¬((' ' : Char) = '\n'))] at hq
      simp at hq
      rcases hq with hq | hq | hq <;> subst hq <;> intro h <;>
        simp at h ⊢ <;> omega
  · intro orcx
    refine ⟨rfl, hs, ?_⟩
    intro q hq
    simp [effOuts, positions] at hq

/-- Every cursor position replayed from the loop trace, while on the
starting row, is at or right of the bound, provided the starting state
satisfies it. -/
lemma loopF_positions_bound (echo : Option Char) (ml : Nat) :
    ∀ (evs : List Event) (orc : List (Option IoErr)) (s : St),
      (s.row = 0 → ml ≤ s.col) →
      ∀ q ∈ positions (s.col, s.row)
          (effOuts (loopF echo ml evs orc s).2.2),
        q.2 = 0 → ml ≤ q.1 := by
  intro evs
  induction evs with
  | nil =>
    intro orc s hs q hq
    simp [loopF, effOuts, positions] at hq
  | cons ev rest ih =>
    intro orc s hs
    rcases horc : takeO orc with ⟨o, orc1⟩
    cases o with
    | some e =>
      simp only [loopF, horc]
      intro q hq
      simp [effOuts, positions] at hq
    | none =>
      cases ev with
      | nonKey =>
        simp only [loopF, horc]
        exact ih orc1 s hs
      | key k =>
        have hdb := dispatchKey_trace_bound echo ml k s orc1 hs
        simp only [loopF, horc]
        rcases hd : dispatchKey echo ml k s orc1 with
            ⟨s1, effs, orc2⟩ | ⟨s1, effs⟩ | ⟨s1, effs⟩ | ⟨e, s1, effs⟩ <;>
          rw [hd] at hdb <;>
          simp only [drState, drEffs] at hdb
        · show ∀ q ∈ positions (s.col, s.row)
              (effOuts (effs ++ (loopF echo ml rest orc2 s1).2.2)),
            q.2 = 0 → ml ≤ q.1
          intro q hq
          rw [effOuts_append, positions_append, hdb.1] at hq
          rcases List.mem_append.mp hq with hq | hq
          · exact hdb.2.2 q hq
          · exact ih orc2 s1 hdb.2.1 q hq
        · intro q hq
          exact hdb.2.2 q hq
        · intro q hq
          exact hdb.2.2 q hq
        · intro q hq
          exact hdb.2.2 q hq

/-- Claim C4: in every run of `try_scanpw`, replaying the rendered output
never takes the cursor column left of the recorded start column `max_left`
while the cursor is still on the starting row; and a Backspace dispatch
moves the cursor left only when the column one to the left is still at or
right of `max_left` (and then by exactly one column). -/
theorem c4_cursor_bound (echo : Option Char) (col0 : Nat) (evs : List Event)
    (orc : List (Option IoErr)) :
    (∀ q ∈ positions (col0, 0)
        (effOuts (try_scanpw echo col0 0 evs orc).2.2),
      q.2 = 0 → col0 ≤ q.1) ∧
    (∀ (m : KeyModifiers) (s s1 : St) (orcA orcB : List (Option IoErr))
        (effs : List Eff),
      dispatchKey echo col0 ⟨.backspace, m⟩ s orcA = .cont s1 effs orcB →
      s1.col < s.col → col0 ≤ s.col - 1 ∧ s1.col = s.col - 1) := by
  constructor
  · rcases horc : takeO orc with ⟨o, orc1⟩
    cases o with
    | some e =>
      simp only [try_scanpw, horc]
      intro q hq
      simp [effOuts, positions] at hq
    | none =>
      rcases horc1 : takeO orc1 with ⟨o1, orc2⟩
      cases o1 with
      | some e =>
        simp only [try_scanpw, horc, horc1]
        intro q hq
        simp [effOuts, positions] at hq
      | none =>
        simp only [try_scanpw, horc, horc1]
        show ∀ q ∈ positions (col0, 0)
            (effOuts (Eff.enableRaw ::
              (loopF echo col0 evs orc2 ⟨[], col0, 0⟩).2.2)),
          q.2 = 0 → col0 ≤ q.1
        intro q hq
        exact loopF_positions_bound echo col0 evs orc2 ⟨[], col0, 0⟩
          (fun _ => le_refl col0) q hq
  · intro m s s1 orcA orcB effs h hlt
    rcases horc : takeO orcA with ⟨o, orcx⟩
    cases o with
    | some e =>
      simp only [dispatchKey, horc] at h
      cases h
    | none =>
      by_cases h0 : s.col = 0
      · simp only [dispatchKey, horc, if_pos h0, Bool.false_eq_true,
          if_false] at h
        cases h
        exact absurd hlt (lt_irrefl _)
      · by_cases hle : col0 ≤ s.col - 1
        · rcases horc1 : takeO orcx with ⟨o1, orcy⟩
          cases o1 with
          | some e =>
            simp only [dispatchKey, horc, if_neg h0, decide_eq_true hle,
              eq_self_iff_true, if_true, horc1] at h
            cases h
          | none =>
            simp only [dispatchKey, horc, if_neg h0, decide_eq_true hle,
              eq_self_iff_true, if_true, horc1] at h
            cases h
            refine ⟨hle, ?_⟩
            simp only [emit, applyPos,
              if_neg (by decide : ¬((' ' : Char) = '\n'))]
            omega
        · simp only [dispatchKey, horc, if_neg h0, decide_eq_false hle,
            Bool.false_eq_true, if_false] at h
          cases h
          exact absurd hlt (lt_irrefl _)

/-- Witness for C4: a concrete masked run starting at column 2, and a
concrete Backspace dispatch that does move the cursor left by one. -/
theorem c4_cursor_bound_witness :
    ((3, 0) ∈ positions (2, 0)
        (effOuts (try_scanpw (some '*') 2 0 [kchar 'a', kenter] []).2.2) ∧
      (2 : Nat) ≤ 3) ∧
    (dispatchKey (some '*') 2 ⟨.backspace, noMods⟩ ⟨['a'], 3, 0⟩ []
        = .cont ⟨[], 2, 0⟩
            [.out (.moveLeft 1), .out (.print ' '), .out (.moveLeft 1)] [] ∧
      ((2 : Nat) ≤ 3 - 1 ∧ (St.mk [] 2 0).col = 3 - 1)) :=
  ⟨⟨by decide,
      (c4_cursor_bound (some '*') 2 [kchar 'a', kenter] []).1 (3, 0)
        (by decide) rfl⟩,
    ⟨by decide,
      (c4_cursor_bound (some '*') 2 [] []).2 noMods ⟨['a'], 3, 0⟩ ⟨[], 2, 0⟩
        [] [] [.out (.moveLeft 1), .out (.print ' '), .out (.moveLeft 1)]
        (by decide) (by decide)⟩⟩

/-- With no I/O failures, processing one non-terminating event prefixes some
effects onto the rest of the run and continues from some state. -/
lemma loopF_continuing_step (echo : Option Char) (ml : Nat) (ev : Event)
    (rest : List Event) (s : St) (h : continuing ev = true) :
    ∃ (effs : List Eff) (s1 : St),
      loopF echo ml (ev :: rest) [] s
        = ((loopF echo ml rest [] s1).1, (loopF echo ml rest [] s1).2.1,
            effs ++ (loopF echo ml rest [] s1).2.2) := by
  cases ev with
  | nonKey =>
    refine ⟨[], s, ?_⟩
    simp [loopF, takeO]
  | key k =>
    rcases k with ⟨code, m⟩
    cases code with
    | char c =>
      by_cases hm : m.isEmpty = true
      · refine ⟨[.out (.print (echo.getD c))],
          { emit (.print (echo.getD c)) s with
            pw := (emit (.print (echo.getD c)) s).pw ++ [echo.getD c] }, ?_⟩
        simp [loopF, takeO, dispatchKey, hm]
      · have hcc : ¬(c = 'c' ∧ m = ctrlMod) := by
          simp only [continuing] at h
          intro hx
          rw [decide_eq_true hx] at h
          exact Bool.noConfusion h
        rw [Bool.not_eq_true] at hm
        refine ⟨[], s, ?_⟩
        simp [loopF, takeO, dispatchKey, hm, hcc]
    | enter =>
      simp [continuing] at h
    | backspace =>
      by_cases h0 : s.col = 0
      · refine ⟨[], { s with pw := s.pw.dropLast }, ?_⟩
        simp only [loopF, takeO, dispatchKey, if_pos h0, Bool.false_eq_true,
          if_false]
      · by_cases hle : ml ≤ s.col - 1
        · refine ⟨[.out (.moveLeft 1), .out (.print ' '), .out (.moveLeft 1)],
            { emit (.moveLeft 1) (emit (.print ' ') (emit (.moveLeft 1) s)) with
              pw := (emit (.moveLeft 1)
                (emit (.print ' ') (emit (.moveLeft 1) s))).pw.dropLast }, ?_⟩
          simp only [loopF, takeO, dispatchKey, if_neg h0,
            decide_eq_true hle, eq_self_iff_true, if_true]
        · refine ⟨[], { s with pw := s.pw.dropLast }, ?_⟩
          simp only [loopF, takeO, dispatchKey, if_neg h0,
            decide_eq_false hle, Bool.false_eq_true, if_false]
    | otherKey =>
      refine ⟨[], s, ?_⟩
      simp [loopF, takeO, dispatchKey]

/-- With no I/O failures, a run whose events are all non-terminating followed
by Ctrl+C ends interrupted, and its trace ends by printing `^C`, disabling
raw mode, and raising the interrupt, in that order. -/
lemma loopF_ctrlc_tail (echo : Option Char) (ml : Nat) :
    ∀ (evs : List Event) (s : St), (∀ e ∈ evs, continuing e = true) →
      (loopF echo ml (evs ++ [kctrlc]) [] s).1 = .interrupted ∧
      ∃ pre, (loopF echo ml (evs ++ [kctrlc]) [] s).2.2
        = pre ++ [.out (.print '^'), .out (.print 'C'), .disableRaw,
            .raiseInterrupt] := by
  intro evs
  induction evs with
  | nil =>
    intro s _
    constructor
    · simp [loopF, takeO, kctrlc, dispatchKey, KeyModifiers.isEmpty, ctrlMod]
    · refine ⟨[], ?_⟩
      simp [loopF, takeO, kctrlc, dispatchKey, KeyModifiers.isEmpty, ctrlMod]
  | cons ev rest ih =>
    intro s h
    obtain ⟨effs, s1, hstep⟩ :=
      loopF_continuing_step echo ml ev (rest ++ [kctrlc]) s
        (h ev (by simp))
    rw [List.cons_append, hstep]
    obtain ⟨h1, pre, h2⟩ := ih s1 (fun e he => h e (by simp [he]))
    exact ⟨h1, ⟨effs ++ pre, by rw [h2, List.append_assoc]⟩⟩

/-- Claim C6: for any sequence of non-terminating events followed by Ctrl+C
(and no I/O failure), the read never returns normally: it ends in the
interrupted outcome, and the trace ends by rendering the literal `^C`, then
disabling raw mode, then raising the process interrupt, in that order and
with nothing after it. -/
theorem c6_ctrl_c_interrupt (echo : Option Char) (col0 row0 : Nat)
    (evs : List Event) (h : ∀ e ∈ evs, continuing e = true) :
    (try_scanpw echo col0 row0 (evs ++ [kctrlc]) []).1 = .interrupted ∧
    ∃ pre, (try_scanpw echo col0 row0 (evs ++ [kctrlc]) []).2.2
      = pre ++ [.out (.print '^'), .out (.print 'C'), .disableRaw,
          .raiseInterrupt] := by
  obtain ⟨h1, pre, h2⟩ :=
    loopF_ctrlc_tail echo col0 evs ⟨[], col0, row0⟩ h
  refine ⟨?_, ⟨Eff.enableRaw :: pre, ?_⟩⟩
  · show (loopF echo col0 (evs ++ [kctrlc]) [] ⟨[], col0, row0⟩).1
      = Outcome.interrupted
    exact h1
  · show Eff.enableRaw ::
        (loopF echo col0 (evs ++ [kctrlc]) [] ⟨[], col0, row0⟩).2.2
      = (Eff.enableRaw :: pre) ++ [.out (.print '^'), .out (.print 'C'),
          .disableRaw, .raiseInterrupt]
    rw [h2]
    rfl

/-- Witness for C6: typing `p`, `a` and then Ctrl+C interrupts the read with
the `^C`, disable, interrupt tail. -/
theorem c6_ctrl_c_interrupt_witness :
    (∀ e ∈ [kchar 'p', kchar 'a'], continuing e = true) ∧
    ((try_scanpw (some '*') 0 0 ([kchar 'p', kchar 'a'] ++ [kctrlc]) []).1
        = .interrupted ∧
      ∃ pre,
        (try_scanpw (some '*') 0 0 ([kchar 'p', kchar 'a'] ++ [kctrlc]) []).2.2
          = pre ++ [.out (.print '^'), .out (.print 'C'), .disableRaw,
              .raiseInterrupt]) :=
  ⟨by decide,
    c6_ctrl_c_interrupt (some '*') 0 0 [kchar 'p', kchar 'a'] (by decide)⟩

end Scanpw
